import Mathlib

set_option maxHeartbeats 1000000
set_option linter.unreachableTactic false
set_option linter.unusedTactic false
set_option linter.unusedVariables false

/-!
Shallow embedding of `src/roman_datamodels/core/_base.py` (class `BaseDataModel`):
the tree serializer `to_asdf_tree`, the flattener `flat_items`, the default
synthesizer `make_default`, the validation-pause scope `pause_validation`, and
the dict-style `__setitem__`.

Python runtime values that can appear in a model field are embedded as the
inductive type `Value`.  Mappings are association lists (Python dicts preserve
insertion order), model instances carry a `tagged` flag recording whether the
instance is a `DataModel` (an ASDF-tagged model) or only a `BaseDataModel`.
-/

namespace RomanDM

/-- A Python runtime value stored in a model field: int/float scalars (the code
only ever produces the integer sentinel for both), strings, booleans, `None`,
lists, dicts (association lists over arbitrary keys, insertion-ordered),
model instances (with their taggedness and ordered field map), enum instances
wrapping an underlying value, and opaque foreign objects (astropy models,
numpy arrays, ...) identified by a tag string. -/
inductive Value where
  | vint (n : Int)
  | vstr (s : String)
  | vbool (b : Bool)
  | vnone
  | vlist (xs : List Value)
  | vdict (xs : List (Value × Value))
  | vmodel (tagged : Bool) (fields : List (String × Value))
  | venum (v : Value)
  | vother (tag : String)

mutual

/-- Structural (Python `==`) equality on embedded values. -/
def Value.beq : Value → Value → Bool
  | .vint a, .vint b => a == b
  | .vstr a, .vstr b => a == b
  | .vbool a, .vbool b => a == b
  | .vnone, .vnone => true
  | .vlist a, .vlist b => beqList a b
  | .vdict a, .vdict b => beqDict a b
  | .vmodel ta fa, .vmodel tb fb => ta == tb && beqFields fa fb
  | .venum a, .venum b => Value.beq a b
  | .vother a, .vother b => a == b
  | _, _ => false

def Value.beqList : List Value → List Value → Bool
  | [], [] => true
  | a :: as_, b :: bs => Value.beq a b && beqList as_ bs
  | _, _ => false

def Value.beqDict : List (Value × Value) → List (Value × Value) → Bool
  | [], [] => true
  | (ka, va) :: as_, (kb, vb) :: bs => Value.beq ka kb && Value.beq va vb && beqDict as_ bs
  | _, _ => false

def Value.beqFields : List (String × Value) → List (String × Value) → Bool
  | [], [] => true
  | (na, va) :: as_, (nb, vb) :: bs => na == nb && Value.beq va vb && beqFields as_ bs
  | _, _ => false

end

/-- Modelled from the spec: the reserved-word alias resolver `field_name` from
`roman_datamodels.core._utils` (that module is not under `src/`).  The spec
(§6) says it "maps an internal field name to its external-facing name"; the one
documented collision (§2 of `_base.py`, `model_config` comment) is the Python
keyword `pass`, whose internal name carries a trailing underscore.  We model
the resolver as stripping one trailing underscore. -/
def field_name (n : String) : String :=
  if n.data.getLast? = some (Char.ofNat 95) then String.mk n.data.dropLast else n

/-- Python `str()` on the values that can appear as dict keys or path segments. -/
def pyStr : Value → String
  | .vint n => toString n
  | .vstr s => s
  | .vbool b => if b then "True" else "False"
  | .vnone => "None"
  | .vother t => t
  | .vlist _ => "<list>"
  | .vdict _ => "<dict>"
  | .vmodel _ _ => "<model>"
  | .venum v => "<enum " ++ pyStr v ++ ">"

mutual

/-- Helper `recurse_tree` from `BaseDataModel.to_asdf_tree`: recurse into non-tagged
sub-models (delegating to their own `to_asdf_tree`, which aliases their field
names), recurse into dicts preserving keys and lists preserving order, replace
an enum by its `.value`, stop at tagged models and leave every other value
unchanged. -/
def recurse_tree : Value → Value
  | .vmodel tagged fs =>
      if tagged then .vmodel tagged fs
      else .vdict (tree_fields fs)
  | .vdict xs => .vdict (tree_dict xs)
  | .vlist xs => .vlist (tree_list xs)
  | .venum v => v
  | v => v

/-- The body of `to_asdf_tree` on a model's field map: recurse into every field
value and rewrite each field name through `field_name`.  (In the Python code the
nested-model case of `recurse_tree` calls `field.to_asdf_tree()`, which performs
exactly this.)  The result keys are `Value`-keyed to embed the Python dict. -/
def tree_fields : List (String × Value) → List (Value × Value)
  | [] => []
  | (n, v) :: rest => (.vstr (field_name n), recurse_tree v) :: tree_fields rest

/-- Recursion of `recurse_tree` through a plain dict: keys preserved. -/
def tree_dict : List (Value × Value) → List (Value × Value)
  | [] => []
  | (k, v) :: rest => (k, recurse_tree v) :: tree_dict rest

/-- Recursion of `recurse_tree` through a list: order preserved. -/
def tree_list : List Value → List Value
  | [] => []
  | v :: rest => recurse_tree v :: tree_list rest

end

/-- Method `BaseDataModel.to_asdf_tree`: convert the instance (its ordered field map)
to an ASDF tree, stopping at tags, and rename conflicting keywords through
`field_name`. -/
def to_asdf_tree (fields : List (String × Value)) : List (Value × Value) :=
  tree_fields fields

/-- Dotted-path join used by `flat_items`: Python's
`".".join(str(name) for name in path)` (segments are converted to strings when
they are appended, see `flat_dict` and `flat_list`). -/
def join_path (path : List String) : String :=
  String.intercalate "." path

mutual

/-- Helper `recurse` from `BaseDataModel.flat_items`: depth-first traversal
yielding (dotted path, leaf value) pairs.  Sub-models are always recursed into
(tagged or not) using their internal field names, dicts recurse per value with
the stringified key appended to the path, lists recurse per element with the
integer index appended only when `flatten_lists` is true (otherwise the whole
list is a leaf), and enums recurse into their underlying value.  The lazy
Python generator is embedded as the list of the pairs it yields, in order. -/
def flat_recurse (flatten_lists : Bool) : Value → List String → List (String × Value)
  | .vmodel _ fs, path => flat_fields flatten_lists fs path
  | .vdict xs, path => flat_dict flatten_lists xs path
  | .vlist xs, path =>
      if flatten_lists then flat_list flatten_lists xs path 0
      else [(join_path path, .vlist xs)]
  | .venum v, path => flat_recurse flatten_lists v path
  | v, path => [(join_path path, v)]

/-- Traversal of `flat_items` through a model's fields (internal names,
no aliasing here: the Python code iterates `for name, value in field`). -/
def flat_fields (flatten_lists : Bool) : List (String × Value) → List String → List (String × Value)
  | [], _ => []
  | (n, v) :: rest, path =>
      flat_recurse flatten_lists v (path ++ [n]) ++ flat_fields flatten_lists rest path

/-- Traversal of `flat_items` through a plain dict. -/
def flat_dict (flatten_lists : Bool) : List (Value × Value) → List String → List (String × Value)
  | [], _ => []
  | (k, v) :: rest, path =>
      flat_recurse flatten_lists v (path ++ [pyStr k]) ++ flat_dict flatten_lists rest path

/-- Traversal of `flat_items` through a list, tracking the element index. -/
def flat_list (flatten_lists : Bool) : List Value → List String → Nat → List (String × Value)
  | [], _, _ => []
  | v :: rest, path, i =>
      flat_recurse flatten_lists v (path ++ [toString i]) ++ flat_list flatten_lists rest path (i + 1)

end

/-- Method `BaseDataModel.flat_items`: flatten the instance's field map into
dotted-path/value pairs (the generator, embedded as the list it yields). -/
def flat_items (flatten_lists : Bool) (fields : List (String × Value)) : List (String × Value) :=
  flat_fields flatten_lists fields []

/-- Keyword arguments (the `**kwargs` threaded through `make_default`). -/
abbrev KW : Type := List (String × Value)

/-- Modelled from the spec: a Custom Adaptor (§6, "a bound adaptor exposing
`make_default(**kwargs) -> value`"); the adaptor machinery lives in
`roman_datamodels.core.adaptors`, which is not under `src/`.  An adaptor is
embedded as the function its `make_default` computes from the kwargs. -/
abbrev Adaptor : Type := KW → Value

/-- Embedding of a Pydantic field default: either `PydanticUndefined` (no
default declared) or a declared value (Python `None` is embedded as
`dval .vnone`). -/
inductive Dflt where
  | undef
  | dval (v : Value)

/-- A field's resolved type annotation: scalar leaves, enumerations (listed by
their member values, in declaration order), nested models (with their
taggedness and their own field list: name, Pydantic default, optional bound
adaptor, annotation), generic lists (with the type arguments reported by
`typing.get_args`), generic dicts (key and value type arguments), or an
unrecognized type (`aother`). -/
inductive Ann where
  | aint
  | afloat
  | astr
  | abool
  | aenum (members : List Value)
  | amodel (tagged : Bool) (fields : List (String × Dflt × Option (KW → Value) × Ann))
  | alist (args : List Ann)
  | adict (k v : Ann)
  | aother

/-- A Pydantic model field as seen by `make_default`'s loop:
internal name, static default, optional bound adaptor, annotation. -/
abbrev Field : Type := String × Dflt × Option Adaptor × Ann

/-- Internal name of a field. -/
def Field.fname (f : Field) : String := f.1

/-- Static Pydantic default of a field. -/
def Field.fdflt (f : Field) : Dflt := f.2.1

/-- Annotation of a field. -/
def Field.fann (f : Field) : Ann := f.2.2.2

/-- Modelled from the spec: `get_adaptor` from `roman_datamodels.core.adaptors`
(not under `src/`); spec §6: "given a field descriptor, returns either a bound
adaptor ... or not applicable". -/
def get_adaptor (f : Field) : Option Adaptor := f.2.2.1

/-- Modelled from the spec: `annotation_type` from
`roman_datamodels.core._utils` (not under `src/`); spec §4.1: it strips
wrapper/generic layers down to the effective leaf type.  Annotations in this
embedding are already in resolved form, so the resolver is the identity. -/
def annotation_type (a : Ann) : Ann := a

/-- Python `None` test used by the `field.default is not None` check. -/
def isNone : Value → Bool
  | .vnone => true
  | _ => false

/-- Helper `special_cases` from `BaseDataModel.make_default`: the fixed table of
field names whose defaults are hard coded. -/
def special_cases (name : String) : Option Value :=
  if name == "read_pattern" then
    some (.vlist [.vlist [.vint 1], .vlist [.vint 2, .vint 3], .vlist [.vint 4],
                  .vlist [.vint 5, .vint 6, .vint 7, .vint 8],
                  .vlist [.vint 9, .vint 10], .vlist [.vint 11]])
  else if name == "p_exptype" then
    some (.vstr "WFI_IMAGE|WFI_GRISM|WFI_PRISM|")
  else if name == "coordinate_distortion_transform" then
    some (.vother "Shift(1) & Shift(2)")
  else if name == "tweakreg_catalog_name" then
    some (.vstr "filename_tweakreg_catalog.asdf")
  else
    none

/-- Key set hard coded for the `phot_table` special case in `default_dict`. -/
def phot_table_keys : List Value :=
  [.vstr "F062", .vstr "F087", .vstr "F106", .vstr "F129", .vstr "F146",
   .vstr "F158", .vstr "F184", .vstr "F213", .vstr "GRISM", .vstr "PRISM", .vstr "DARK"]

mutual

/-- Helper `get_default` from `BaseDataModel.make_default`: generic scalar
defaults.  Nested models recurse into their own `make_default` (with the same
kwargs and no override data, which yields exactly their synthesized field map),
ints and floats get the sentinel -999999, strings "dummy value", booleans
False, an enumeration its first member's value, anything else `None`
(embedded as `none`, meaning the caller omits or stores `None`). -/
def get_default : Ann → KW → Option Value
  | .amodel tagged fs, kw => some (.vmodel tagged (make_default_fields fs kw))
  | .afloat, _ => some (.vint (-999999))
  | .aint, _ => some (.vint (-999999))
  | .astr, _ => some (.vstr "dummy value")
  | .abool, _ => some (.vbool false)
  | .aenum members, _ => members.head?
  | _, _ => none
termination_by a _ => sizeOf a
decreasing_by all_goals first
  | (simp [annotation_type]; omega)
  | simp [annotation_type]
  | omega

/-- Helper `default_list` from `BaseDataModel.make_default`: one
generically-derived default per type argument listed in the annotation. -/
def default_list : List Ann → KW → List Value
  | [], _ => []
  | t :: rest, kw => (get_default t kw).getD .vnone :: default_list rest kw
termination_by args _ => sizeOf args
decreasing_by all_goals first
  | (simp [annotation_type]; omega)
  | simp [annotation_type]
  | omega

/-- Helper `default_dict` from `BaseDataModel.make_default`: one entry per
expected key; the key set is the generic key-type default except for the hard
coded `phot_table` key set, and each value is the generic default of the value
type (Python computes `get_default(value_type)` once per key; it is pure, so
the computation is shared here). -/
def default_dict (kty vty : Ann) (name : String) (kw : KW) : List (Value × Value) :=
  let keys : List Value :=
    if name == "phot_table" then phot_table_keys
    else [(get_default kty kw).getD .vnone]
  let vdef : Value := (get_default vty kw).getD .vnone
  keys.map fun k => (k, vdef)
termination_by sizeOf kty + sizeOf vty + 2
decreasing_by all_goals first
  | (simp [annotation_type]; omega)
  | simp [annotation_type]
  | omega

/-- Body of the per-field loop of `BaseDataModel.make_default`: resolve one
field's default value by the code's priority chain.  `none` means the field is
omitted from the defaults dict (the final `continue`-less fall-through). -/
def resolve_field : Field → KW → Option Value
  | (n, .dval v, ad, a), kw => if isNone v then resolve_rest n ad a kw else some v
  | (n, .undef, ad, a), kw => resolve_rest n ad a kw
termination_by f _ => sizeOf f
decreasing_by all_goals first
  | (simp [annotation_type]; omega)
  | simp [annotation_type]
  | omega

/-- Continuation of `resolve_field` once the static-default check
(`field.default is not PydanticUndefined and field.default is not None`) has
failed: adaptor, then special cases, then generic containers, then generic
scalars. -/
def resolve_rest : String → Option (KW → Value) → Ann → KW → Option Value
  | _, some adaptor, _, kw => some (adaptor kw)
  | n, none, a, kw =>
      match special_cases (field_name n) with
      | some v => some v
      | none => resolve_origin n a kw
termination_by _ _ a _ => sizeOf a + 3
decreasing_by all_goals first
  | (simp [annotation_type]; omega)
  | simp [annotation_type]
  | omega

/-- Dispatch of `make_default` on `get_origin(field.annotation)`: a class
origin that is a dict goes to `default_dict`, a list to `default_list`, and
every other annotation falls through to `get_default(annotation_type(...))`
(whose result, when `None`, omits the field). -/
def resolve_origin : String → Ann → KW → Option Value
  | n, .adict kty vty, kw => some (.vdict (default_dict kty vty (field_name n) kw))
  | n, .alist args, kw => some (.vlist (default_list args kw))
  | n, a, kw => get_default (annotation_type a) kw
termination_by _ a _ => sizeOf a + 2
decreasing_by all_goals first
  | (simp [annotation_type]; omega)
  | simp [annotation_type]
  | omega

/-- Loop of `BaseDataModel.make_default` building the defaults dict: each field
is keyed by its aliased name (`name = field_name(name)` runs first) and
resolved by `resolve_field`; fields resolving to `None` are omitted. -/
def make_default_fields : List Field → KW → List (String × Value)
  | [], _ => []
  | f :: rest, kw =>
      match resolve_field f kw with
      | some v => (field_name (Field.fname f), v) :: make_default_fields rest kw
      | none => make_default_fields rest kw
termination_by fields _ => sizeOf fields
decreasing_by all_goals first
  | (simp [annotation_type]; omega)
  | simp [annotation_type]
  | omega

end

/-- Association-list lookup over a `Value`-keyed dict (Python `d[k]` /
`k in d`, insertion order, first match). -/
def lookup_value (xs : List (Value × Value)) (k : Value) : Option Value :=
  (xs.find? fun p => Value.beq p.1 k).map fun p => p.2

/-- Key membership in a `Value`-keyed dict. -/
def contains_value_key (xs : List (Value × Value)) (k : Value) : Bool :=
  xs.any fun p => Value.beq p.1 k

/-- Association-list lookup over a string-keyed dict. -/
def lookup_str (xs : List (String × Value)) (k : String) : Option Value :=
  (xs.find? fun p => p.1 == k).map fun p => p.2

/-- Key membership in a string-keyed dict. -/
def contains_str_key (xs : List (String × Value)) (k : String) : Bool :=
  xs.any fun p => p.1 == k

mutual

/-- Modelled from the spec: value-level recursion of `merge_dicts` from
`roman_datamodels.core._utils` (not under `src/`); spec §4.4: "deep-merge
caller-supplied `data` on top (override wins on key conflict, recursively, for
nested dicts; non-dict values replace outright)". -/
def merge_value : Value → Value → Value
  | .vdict b, .vdict o =>
      .vdict (merge_value_entries b o ++ o.filter fun p => !contains_value_key b p.1)
  | _, o => o
termination_by b _ => sizeOf b

/-- Entries of the base dict after a deep merge: overridden keys merge
recursively, the rest keep their base value. -/
def merge_value_entries : List (Value × Value) → List (Value × Value) → List (Value × Value)
  | [], _ => []
  | (k, v) :: rest, o =>
      (k, match lookup_value o k with
          | some ov => merge_value v ov
          | none => v) :: merge_value_entries rest o
termination_by b _ => sizeOf b

end

/-- String-keyed counterpart of `merge_value_entries` for the top level of
`merge_dicts`. -/
def merge_str_entries : List (String × Value) → List (String × Value) → List (String × Value)
  | [], _ => []
  | (k, v) :: rest, o =>
      (k, match lookup_str o k with
          | some ov => merge_value v ov
          | none => v) :: merge_str_entries rest o

/-- Modelled from the spec: `merge_dicts` from `roman_datamodels.core._utils`
(not under `src/`) applied to the two top-level string-keyed trees that
`make_default` merges (the dumped defaults and the caller-supplied `data`). -/
def merge_dicts (base over : List (String × Value)) : List (String × Value) :=
  merge_str_entries base over ++ over.filter fun p => !contains_str_key base p.1

mutual

/-- Modelled from the spec: Pydantic `model_dump()` on the provisional
`cls(**defaults)` instance (Pydantic is an external dependency); spec §4.4:
"construct a provisional instance from the assembled defaults, serialize it to
a plain nested dict".  Nested model instances become plain dicts, containers
recurse, enums dump to their value, scalars are unchanged.  (The provisional
construction itself is value-preserving on the synthesized defaults: it
validates and returns the same data.) -/
def dump_value : Value → Value
  | .vmodel _ fs => .vdict (dump_fields fs)
  | .vdict xs => .vdict (dump_dict xs)
  | .vlist xs => .vlist (dump_list xs)
  | .venum v => dump_value v
  | v => v

/-- Dump of a model's field map into a plain string-keyed dict. -/
def dump_fields : List (String × Value) → List (Value × Value)
  | [] => []
  | (n, v) :: rest => (.vstr n, dump_value v) :: dump_fields rest

/-- Dump through a plain dict. -/
def dump_dict : List (Value × Value) → List (Value × Value)
  | [] => []
  | (k, v) :: rest => (k, dump_value v) :: dump_dict rest

/-- Dump through a list. -/
def dump_list : List Value → List Value
  | [] => []
  | v :: rest => dump_value v :: dump_list rest

end

/-- Top-level dump of the defaults dict (string keys stay string keys). -/
def dump_tree : List (String × Value) → List (String × Value)
  | [] => []
  | (n, v) :: rest => (n, dump_value v) :: dump_tree rest

/-- Method `BaseDataModel.make_default`: build the defaults dict field by
field, construct the provisional instance and dump it to a plain nested dict,
deep-merge the caller-supplied `data` on top and construct the final instance.
The two Pydantic construction steps are modelled from the spec as
value-preserving (they validate and hand back the same data), so the embedding
returns the final instance's field map. -/
def make_default (fields : List Field) (kw : KW) (data : List (String × Value)) :
    List (String × Value) :=
  merge_dicts (dump_tree (make_default_fields fields kw)) data

/-- Scalar (non-recursing) runtime values: ints, strings, booleans, `None` and
opaque foreign objects.  These are exactly the values every recursion of the
serializer and the flattener passes through unchanged. -/
def is_scalar : Value → Bool
  | .vint _ => true
  | .vstr _ => true
  | .vbool _ => true
  | .vnone => true
  | .vother _ => true
  | _ => false

mutual

/-- Modelled from the spec: Pydantic type validation of a value against a
field annotation (Pydantic is an external dependency; spec §3: "after any
field assignment, the instance satisfies its Model's type constraints unless
validation has been explicitly paused").  Ints validate int and float fields
(the code only ever synthesizes the integer sentinel for floats), strings,
booleans and enum membership are checked structurally, nested models must
match taggedness and have exactly the declared fields with validating values,
`List[t]` checks every element against the one type argument, `Dict[k, v]`
checks keys and values, and an unrecognized annotation accepts scalars. -/
def wt : Ann → Value → Bool
  | .aint, .vint _ => true
  | .afloat, .vint _ => true
  | .astr, .vstr _ => true
  | .abool, .vbool _ => true
  | .aenum members, v => members.any fun m => Value.beq m v
  | .amodel tagged fs, .vmodel t vs => tagged == t && wt_fields fs vs
  | .alist args, .vlist xs =>
      match args with
      | [t] => wt_list t xs
      | _ => false
  | .adict kty vty, .vdict xs => wt_dict kty vty xs
  | .aother, v => is_scalar v
  | _, _ => false
termination_by a v => sizeOf a + sizeOf v

/-- Validation of a model's field map against its declared fields, in order. -/
def wt_fields : List Field → List (String × Value) → Bool
  | [], [] => true
  | (n, _, _, a) :: fs, (m, v) :: vs => n == m && wt a v && wt_fields fs vs
  | _, _ => false
termination_by fs vs => sizeOf fs + sizeOf vs

/-- Validation of list elements against the element type. -/
def wt_list : Ann → List Value → Bool
  | _, [] => true
  | t, x :: xs => wt t x && wt_list t xs
termination_by t xs => sizeOf t + sizeOf xs

/-- Validation of dict entries against the key and value types. -/
def wt_dict : Ann → Ann → List (Value × Value) → Bool
  | _, _, [] => true
  | kty, vty, (k, v) :: xs => wt kty k && wt vty v && wt_dict kty vty xs
termination_by kty vty xs => sizeOf kty + sizeOf vty + sizeOf xs

end

/-- Embedding of the Pydantic `model_config` dict entries that
`pause_validation` toggles: `validate_assignment` and `revalidate_instances`. -/
structure Config where
  validate_assignment : Bool
  revalidate_instances : String
deriving DecidableEq, Repr

/-- The enabled state both flags are set to on scope exit
(`validate_assignment = True`, `revalidate_instances = "always"`; these are
also the values in the class-level `model_config` declaration). -/
def enabled_config : Config := ⟨true, "always"⟩

/-- The state both flags are set to on scope entry
(`validate_assignment = False`, `revalidate_instances = "never"`). -/
def paused_config : Config := ⟨false, "never"⟩

/-- A live model instance for the mutation-facing operations: its declared
fields (the schema), its current field values, the validation flags of its
`model_config`, and the per-instance private attribute `_validate_setitem`.
(For the sharing behaviour of `model_config` across instances of one class see
the world model `pause_enter` below; here the config is carried inline.) -/
structure PInst where
  schema : List Field
  fields : List (String × Value)
  config : Config
  validate_setitem : Bool

/-- Write a field value into a field map (replace if present, else append:
Pydantic `extra="allow"` accepts unknown names). -/
def set_field (fs : List (String × Value)) (k : String) (v : Value) :
    List (String × Value) :=
  if contains_str_key fs k then fs.map fun p => if p.1 == k then (p.1, v) else p
  else fs ++ [(k, v)]

/-- Annotation of a declared field, if the name is declared. -/
def field_ann (schema : List Field) (k : String) : Option Ann :=
  (schema.find? fun f => f.1 == k).map fun f => f.2.2.2

/-- Modelled from the spec: Pydantic `setattr` under `validate_assignment`
(Pydantic is an external dependency; spec §7: "Validation failure: any
assignment ... violating a field's declared type/shape constraint, raised
immediately unless validation is paused", and "a failed assignment leaves
prior state unaffected because validation occurs at the point of mutation,
before commit").  When the config enables assignment validation the new value
is checked against the declared annotation and a validation error is raised
with the instance unchanged on mismatch; undeclared (extra) names and paused
configs write without checking. -/
def setattr_model (i : PInst) (k : String) (v : Value) : Except String PInst :=
  if i.config.validate_assignment then
    match field_ann i.schema k with
    | some a =>
        if wt a v then .ok { i with fields := set_field i.fields k v }
        else .error "ValidationError"
    | none => .ok { i with fields := set_field i.fields k v }
  else .ok { i with fields := set_field i.fields k v }

/-- Full validity of the instance's current field values against its schema
(what a full revalidation checks). -/
def model_is_valid (i : PInst) : Bool :=
  wt_fields i.schema i.fields

/-- Modelled from the spec: `self.model_validate(self)` (Pydantic, external):
a full revalidation of the instance, honoured only when the config's
`revalidate_instances` is not "never"; returns the validation error it
raises, if any. -/
def model_validate (i : PInst) : Option String :=
  if i.config.revalidate_instances == "never" then none
  else if model_is_valid i then none else some "ValidationError"

/-- Result of running a scoped operation: the final instance state, the
exception that propagates to the caller (if any), and how many full
revalidations were performed. -/
structure ExecResult where
  inst : PInst
  err : Option String
  revalidations : Nat

/-- Method `BaseDataModel.pause_validation`: set `validate_assignment = False`
and `revalidate_instances = "never"`, run the caller's block (embedded as a
function from the paused instance to its final state and the exception it
raised, if any), and in the `finally` clause set the two flags back to `True`
and `"always"` unconditionally and, when `revalidate_on_exit` is true, run one
full `model_validate`.  An error raised by that exit revalidation replaces a
block error (Python: an exception raised in `finally` supersedes the pending
one); otherwise the block's error, if any, propagates. -/
def pause_validation (revalidate_on_exit : Bool)
    (block : PInst → PInst × Option String) (i : PInst) : ExecResult :=
  let paused := { i with config := paused_config }
  let out := block paused
  let restored := { out.1 with config := enabled_config }
  if revalidate_on_exit then
    match model_validate restored with
    | some e => ⟨restored, some e, 1⟩
    | none => ⟨restored, out.2, 1⟩
  else ⟨restored, out.2, 0⟩

/-- Warning emitted by `__setitem__` when `_validate_setitem` is false. -/
def setitem_warning : String :=
  "RomanDataModel.__setitem__ is circumventing validation, and does not re-validate the model."

/-- Result of an item-style assignment: final state, warnings emitted (in
order), the exception propagated (if any), and the number of full
revalidations performed. -/
structure SetItemResult where
  inst : PInst
  warnings : List String
  err : Option String
  revalidations : Nat

/-- Method `BaseDataModel.__setitem__`: when `_validate_setitem` is true the
context is `nullcontext()` and the `setattr` is validated as usual; when it is
false, one `RuntimeWarning` is emitted and the `setattr` runs inside
`pause_validation(revalidate_on_exit=False)`. -/
def setitem (i : PInst) (k : String) (v : Value) : SetItemResult :=
  if i.validate_setitem then
    match setattr_model i k v with
    | .ok i2 => ⟨i2, [], none, 0⟩
    | .error e => ⟨i, [], some e, 0⟩
  else
    let r := pause_validation false
      (fun j =>
        match setattr_model j k v with
        | .ok j2 => (j2, none)
        | .error e => (j, some e)) i
    ⟨r.inst, [setitem_warning], r.err, r.revalidations⟩

/-- An instance as seen by the cross-instance flag model: only its identity
and the model class it belongs to matter. -/
structure CInst where
  id : Nat
  cls : Nat
deriving DecidableEq, Repr

/-- A world assigning every model class its (single, class-level)
`model_config` flag state: `model_config` is a class attribute, so
`self.model_config[...] = ...` in `pause_validation` mutates the dict shared
by every instance of `self`'s class. -/
def WorldConfig : Type := Nat → Config

/-- The initial world: every class has the declared `model_config` values. -/
def init_world : WorldConfig := fun _ => enabled_config

/-- Entry of `pause_validation` on instance `a`:
`self.model_config["validate_assignment"] = False` and
`self.model_config["revalidate_instances"] = "never"` mutate the config of
`a`'s class. -/
def pause_enter (w : WorldConfig) (a : CInst) : WorldConfig :=
  fun c => if c = a.cls then paused_config else w c

/-- Exit of `pause_validation` on instance `a` (the `finally` clause): the
config of `a`'s class is set back to the enabled values. -/
def pause_exit (w : WorldConfig) (a : CInst) : WorldConfig :=
  fun c => if c = a.cls then enabled_config else w c

/-- Whether an assignment to instance `b` is validated in world `w`: Pydantic
consults `validate_assignment` in the `model_config` of `b`'s class. -/
def assignments_validated (w : WorldConfig) (b : CInst) : Bool :=
  (w b.cls).validate_assignment

/-- Whether the `field.default is not PydanticUndefined and field.default is
not None` test of `make_default` succeeds: a static, non-null default. -/
def has_static : Dflt → Bool
  | .dval v => !isNone v
  | .undef => false

/-- Any hit in a `Value`-keyed lookup is a value of one of the entries, hence
structurally smaller than the entry list. -/
theorem sizeOf_lookup_value {xs : List (Value × Value)} {k v : Value}
    (h : lookup_value xs k = some v) : sizeOf v < sizeOf xs := by
  induction xs with
  | nil => simp [lookup_value] at h
  | cons p rest ih =>
      rw [lookup_value, List.find?] at h
      cases hb : Value.beq p.1 k with
      | true =>
          rw [hb] at h
          simp at h
          cases p with
          | mk k1 v1 => simp at h; subst h; simp; omega
      | false =>
          rw [hb] at h
          have := ih (by rw [lookup_value]; exact h)
          simp; omega

mutual

/-- Modelled from the spec: Pydantic validation-construction of a field value
from tree data, as triggered by constructing a fresh instance of the model
class from a serialized tree (Pydantic is an external dependency; spec §8:
"`to_tree(instance)` followed by constructing a fresh instance from that
tree").  Scalars must match their declared type, enum fields check membership,
a nested model field consumes a plain dict looked up by aliased field name
(`populate_by_name` accepts either name; serialized trees carry the alias),
`List[t]` and `Dict[k, v]` construct elementwise, and an unrecognized
annotation accepts scalars unchanged.  `none` is a validation failure. -/
def construct : Ann → Value → Option Value
  | .aint, .vint n => some (.vint n)
  | .afloat, .vint n => some (.vint n)
  | .astr, .vstr s => some (.vstr s)
  | .abool, .vbool b => some (.vbool b)
  | .aenum members, v => if members.any fun m => Value.beq m v then some v else none
  | .amodel tagged fs, .vdict entries => (construct_fields fs entries).map (.vmodel tagged)
  | .alist args, .vlist xs =>
      match args with
      | [t] => (construct_list t xs).map .vlist
      | _ => none
  | .adict kty vty, .vdict xs => (construct_dict kty vty xs).map .vdict
  | .aother, v => if is_scalar v then some v else none
  | _, _ => none
termination_by a v => sizeOf a + sizeOf v
decreasing_by all_goals first
  | (simp; omega)
  | simp
  | omega

/-- Construction of a model's field values from a tree dict: every declared
field is looked up under its aliased name and constructed against its
annotation. -/
def construct_fields : List Field → List (Value × Value) → Option (List (String × Value))
  | [], _ => some []
  | (n, d, ad, a) :: fs, entries =>
      match h : lookup_value entries (.vstr (field_name n)) with
      | some tv =>
          match construct a tv, construct_fields fs entries with
          | some v, some rest => some ((n, v) :: rest)
          | _, _ => none
      | none => none
termination_by fs entries => sizeOf fs + sizeOf entries
decreasing_by all_goals first
  | (have hlv := sizeOf_lookup_value h; simp; omega)
  | (simp; omega)
  | simp
  | omega

/-- Elementwise construction of a `List[t]` field. -/
def construct_list : Ann → List Value → Option (List Value)
  | _, [] => some []
  | t, x :: xs =>
      match construct t x, construct_list t xs with
      | some y, some rest => some (y :: rest)
      | _, _ => none
termination_by t xs => sizeOf t + sizeOf xs
decreasing_by all_goals first
  | (simp; omega)
  | simp
  | omega

/-- Entrywise construction of a `Dict[k, v]` field. -/
def construct_dict : Ann → Ann → List (Value × Value) → Option (List (Value × Value))
  | _, _, [] => some []
  | kty, vty, (k, v) :: xs =>
      match construct kty k, construct vty v, construct_dict kty vty xs with
      | some k2, some v2, some rest => some ((k2, v2) :: rest)
      | _, _, _ => none
termination_by kty vty xs => sizeOf kty + sizeOf vty + sizeOf xs
decreasing_by all_goals first
  | (simp; omega)
  | simp
  | omega

end

/-- All values in the list are scalars. -/
def scalars_only : List Value → Bool
  | [] => true
  | v :: vs => is_scalar v && scalars_only vs

/-- Annotations whose validated values are always scalars (hashable leaf
types: the only types the generated schemas use as dict keys or enum member
values). -/
def is_scalar_ann : Ann → Bool
  | .aint => true
  | .afloat => true
  | .astr => true
  | .abool => true
  | .aother => true
  | .aenum members => scalars_only members
  | _ => false

/-- All strings in the list are distinct. -/
def distinct_keys : List String → Bool
  | [] => true
  | x :: xs => !(xs.contains x) && distinct_keys xs

/-- Aliased (serialized) names of a model's fields, in order. -/
def alias_names : List Field → List String
  | [] => []
  | (n, _, _, _) :: fs => field_name n :: alias_names fs

mutual

/-- Well-formedness of an annotation as produced by the schema generator:
enum members are scalars, nested models have distinct aliased field names,
and dict key types are scalar (hashable).  These hold of every generated
Pydantic model and are what the round-trip argument needs. -/
def good_ann : Ann → Bool
  | .aenum members => scalars_only members
  | .amodel _ fs => distinct_keys (alias_names fs) && good_fields fs
  | .alist args =>
      match args with
      | [t] => good_ann t
      | _ => true
  | .adict kty vty => is_scalar_ann kty && good_ann vty
  | _ => true
termination_by a => sizeOf a
decreasing_by all_goals first
  | (simp; omega)
  | simp
  | omega

/-- Well-formedness of a model's declared fields. -/
def good_fields : List Field → Bool
  | [] => true
  | (_, _, _, a) :: fs => good_ann a && good_fields fs
termination_by fs => sizeOf fs
decreasing_by all_goals first
  | (simp; omega)
  | simp
  | omega

end

mutual

/-- Whether a value is free of tagged sub-model instances (recursively, at
any depth, including the value itself when it is a model instance). -/
def no_tagged : Value → Bool
  | .vmodel tagged fs => !tagged && no_tagged_fields fs
  | .vdict xs => no_tagged_dict xs
  | .vlist xs => no_tagged_list xs
  | .venum v => no_tagged v
  | _ => true

/-- Freedom from tagged sub-instances across a model's field values. -/
def no_tagged_fields : List (String × Value) → Bool
  | [] => true
  | (_, v) :: rest => no_tagged v && no_tagged_fields rest

/-- Freedom from tagged sub-instances across a dict's keys and values. -/
def no_tagged_dict : List (Value × Value) → Bool
  | [] => true
  | (k, v) :: rest => no_tagged k && no_tagged v && no_tagged_dict rest

/-- Freedom from tagged sub-instances across a list. -/
def no_tagged_list : List Value → Bool
  | [] => true
  | v :: rest => no_tagged v && no_tagged_list rest

end

/-- The example model of spec §8: `name: str` and `count: int` with no static
default, `tags: List[str]`; no adaptors, no special-case names. -/
def c2_fields : List Field :=
  [("name", .undef, none, .astr),
   ("count", .undef, none, .aint),
   ("tags", .undef, none, .alist [.astr])]

/-- Concrete single-field schema (an `int` field named "count") used to
exercise the validation scope and item assignment at a concrete input. -/
def wschema : List Field := [("count", .undef, none, .aint)]

/-- Concrete valid instance of `wschema` with validation fully enabled. -/
def winst : PInst := ⟨wschema, [("count", .vint 1)], enabled_config, true⟩

/-- Concrete block assigning the type-incompatible string "bad" to the `int`
field "count" through `setattr`, reporting the raised error, if any. -/
def wblock : PInst → PInst × Option String := fun j =>
  match setattr_model j "count" (.vstr "bad") with
  | .ok j2 => (j2, none)
  | .error e => (j, some e)

/-- Concrete instance of `wschema` whose `_validate_setitem` flag is false. -/
def winst2 : PInst := ⟨wschema, [("count", .vint 1)], enabled_config, false⟩

/-- Concrete five-field schema exercising the round-trip: an aliased string
field (the Python keyword `pass`), a nested non-tagged model, an enum, a
`List[int]` and a `Dict[str, int]`. -/
def rschema : List Field :=
  [("pass_", .undef, none, .astr),
   ("meta", .undef, none, .amodel false [("count", .undef, none, .aint)]),
   ("mode", .undef, none, .aenum [.vstr "A", .vstr "B"]),
   ("tags", .undef, none, .alist [.aint]),
   ("table", .undef, none, .adict .astr .aint)]

/-- Concrete valid field values for `rschema`, free of tagged sub-instances. -/
def rfields : List (String × Value) :=
  [("pass_", .vstr "x"),
   ("meta", .vmodel false [("count", .vint 5)]),
   ("mode", .vstr "B"),
   ("tags", .vlist [.vint 1, .vint 2]),
   ("table", .vdict [(.vstr "k", .vint 7)])]

theorem tree_fields_eq_map (fs : List (String × Value)) :
    tree_fields fs = fs.map fun p => (.vstr (field_name p.1), recurse_tree p.2) := by
  induction fs with
  | nil => simp [tree_fields]
  | cons p rest ih => cases p; simp [tree_fields, ih]

theorem tree_dict_eq_map (xs : List (Value × Value)) :
    tree_dict xs = xs.map fun p => (p.1, recurse_tree p.2) := by
  induction xs with
  | nil => simp [tree_dict]
  | cons p rest ih => cases p; simp [tree_dict, ih]

theorem tree_list_eq_map (xs : List Value) :
    tree_list xs = xs.map recurse_tree := by
  induction xs with
  | nil => simp [tree_list]
  | cons v rest ih => simp [tree_list, ih]

theorem recurse_tree_scalar {v : Value} (h : is_scalar v = true) :
    recurse_tree v = v := by
  cases v <;> simp_all [is_scalar, recurse_tree]

/-- C1: `make_default` resolves every field by the strict priority chain:
(1) a static default that is neither undefined nor `None` is used verbatim,
regardless of adaptors, special-case names or the annotation; (2) otherwise a
bound adaptor's `make_default(**kwargs)` result is used; (3) otherwise a
special-case table hit is used; (4) otherwise generic dict and list annotations
get the generic container defaults; (5) otherwise the generic scalar defaults
apply to the resolved leaf type: a nested model recurses into its own
synthesis, int and float get -999999, str the placeholder "dummy value", bool
`False`, and an enum its first member's value. -/
theorem C1_make_default_priority :
    (∀ (n : String) (v : Value) (ad : Option Adaptor) (a : Ann) (kw : KW),
       isNone v = false → resolve_field (n, .dval v, ad, a) kw = some v) ∧
    (∀ (n : String) (d : Dflt) (g : Adaptor) (a : Ann) (kw : KW),
       has_static d = false → resolve_field (n, d, some g, a) kw = some (g kw)) ∧
    (∀ (n : String) (d : Dflt) (a : Ann) (kw : KW) (sv : Value),
       has_static d = false → special_cases (field_name n) = some sv →
       resolve_field (n, d, none, a) kw = some sv) ∧
    (∀ (n : String) (d : Dflt) (kty vty : Ann) (kw : KW),
       has_static d = false → special_cases (field_name n) = none →
       resolve_field (n, d, none, .adict kty vty) kw
         = some (.vdict (default_dict kty vty (field_name n) kw))) ∧
    (∀ (n : String) (d : Dflt) (args : List Ann) (kw : KW),
       has_static d = false → special_cases (field_name n) = none →
       resolve_field (n, d, none, .alist args) kw
         = some (.vlist (default_list args kw))) ∧
    (∀ (n : String) (d : Dflt) (kw : KW),
       has_static d = false → special_cases (field_name n) = none →
       (∀ (tagged : Bool) (fs : List Field),
          resolve_field (n, d, none, .amodel tagged fs) kw
            = some (.vmodel tagged (make_default_fields fs kw))) ∧
       resolve_field (n, d, none, .aint) kw = some (.vint (-999999)) ∧
       resolve_field (n, d, none, .afloat) kw = some (.vint (-999999)) ∧
       resolve_field (n, d, none, .astr) kw = some (.vstr "dummy value") ∧
       resolve_field (n, d, none, .abool) kw = some (.vbool false) ∧
       ∀ (m : Value) (ms : List Value),
         resolve_field (n, d, none, .aenum (m :: ms)) kw = some m) := by
  have hrest : ∀ (n : String) (d : Dflt) (ad : Option Adaptor) (a : Ann) (kw : KW),
      has_static d = false → resolve_field (n, d, ad, a) kw = resolve_rest n ad a kw := by
    intro n d ad a kw hd
    cases d with
    | undef => rw [resolve_field]
    | dval v =>
        rw [has_static, Bool.not_eq_false'] at hd
        rw [resolve_field, hd]
        simp
  refine ⟨?_, ?_, ?_, ?_, ?_, ?_⟩
  · intro n v ad a kw hv
    rw [resolve_field, hv]
    simp
  · intro n d g a kw hd
    rw [hrest n d (some g) a kw hd, resolve_rest]
  · intro n d a kw sv hd hs
    rw [hrest n d none a kw hd, resolve_rest, hs]
  · intro n d kty vty kw hd hs
    rw [hrest n d none (.adict kty vty) kw hd, resolve_rest, hs]
    simp [resolve_origin]
  · intro n d args kw hd hs
    rw [hrest n d none (.alist args) kw hd, resolve_rest, hs]
    simp [resolve_origin]
  · intro n d kw hd hs
    refine ⟨?_, ?_, ?_, ?_, ?_, ?_⟩
    · intro tagged fs
      rw [hrest n d none (.amodel tagged fs) kw hd, resolve_rest, hs]
      simp [resolve_origin, annotation_type, get_default]
    · rw [hrest n d none .aint kw hd, resolve_rest, hs]
      simp [resolve_origin, annotation_type, get_default]
    · rw [hrest n d none .afloat kw hd, resolve_rest, hs]
      simp [resolve_origin, annotation_type, get_default]
    · rw [hrest n d none .astr kw hd, resolve_rest, hs]
      simp [resolve_origin, annotation_type, get_default]
    · rw [hrest n d none .abool kw hd, resolve_rest, hs]
      simp [resolve_origin, annotation_type, get_default]
    · intro m ms
      rw [hrest n d none (.aenum (m :: ms)) kw hd, resolve_rest, hs]
      simp [resolve_origin, annotation_type, get_default]

/-- Witness for C1 at concrete inputs: a field with the static default "s"
resolves to it, and a static-default-free `int` field resolves to the
sentinel. -/
theorem C1_make_default_priority_witness :
    resolve_field ("x", .dval (.vstr "s"), none, .aint) [] = some (.vstr "s") ∧
    resolve_field ("x", .undef, none, .aint) [] = some (.vint (-999999)) := by
  constructor
  · exact C1_make_default_priority.1 "x" (.vstr "s") none .aint [] rfl
  · exact (C1_make_default_priority.2.2.2.2.2 "x" .undef [] rfl rfl).2.1

/-- C2, counterexample: on the spec §8 example model (`name: str`,
`count: int`, `tags: List[str]`, no static defaults), `make_default()` does
not produce the empty list for `tags`: `default_list` produces one
generically-derived default per type argument, and `List[str]` lists the one
type argument `str`, so `tags` defaults to `["dummy value"]`. -/
theorem C2_counterexample :
    lookup_str (make_default c2_fields [] []) "tags" = some (.vlist [.vstr "dummy value"]) ∧
    lookup_str (make_default c2_fields [] []) "tags" ≠ some (.vlist []) := by
  have h : make_default c2_fields [] [] =
      [("name", .vstr "dummy value"), ("count", .vint (-999999)),
       ("tags", .vlist [.vstr "dummy value"])] := by
    have hn : field_name "name" = "name" := rfl
    have hc : field_name "count" = "count" := rfl
    have ht : field_name "tags" = "tags" := rfl
    have hsn : special_cases "name" = none := rfl
    have hsc : special_cases "count" = none := rfl
    have hst : special_cases "tags" = none := rfl
    simp [make_default, make_default_fields, resolve_field, resolve_rest, resolve_origin,
          get_default, default_list, annotation_type, c2_fields, Field.fname, hn, hc, ht,
          hsn, hsc, hst, dump_tree, dump_value, dump_list, merge_dicts, merge_str_entries,
          lookup_str, contains_str_key, isNone, List.find?, beq_iff_eq]
  rw [h]
  constructor
  · simp [lookup_str, List.find?]
  · simp [lookup_str, List.find?]

/-- C2, amended: on the example model, `make_default()` yields
`name = "dummy value"`, `count = -999999` and `tags = ["dummy value"]` (one
generic default per type argument of `List[str]`; the empty list would require
an annotation with no type arguments), and overriding with
`data = {"name": "M1"}` changes `name` to "M1" and leaves `count` and `tags`
at those defaults. -/
theorem C2_make_default_example :
    make_default c2_fields [] [] =
      [("name", .vstr "dummy value"), ("count", .vint (-999999)),
       ("tags", .vlist [.vstr "dummy value"])] ∧
    make_default c2_fields [] [("name", .vstr "M1")] =
      [("name", .vstr "M1"), ("count", .vint (-999999)),
       ("tags", .vlist [.vstr "dummy value"])] := by
  have hn : field_name "name" = "name" := rfl
  have hc : field_name "count" = "count" := rfl
  have ht : field_name "tags" = "tags" := rfl
  have hsn : special_cases "name" = none := rfl
  have hsc : special_cases "count" = none := rfl
  have hst : special_cases "tags" = none := rfl
  constructor <;>
    simp [make_default, make_default_fields, resolve_field, resolve_rest, resolve_origin,
          get_default, default_list, annotation_type, c2_fields, Field.fname, hn, hc, ht,
          hsn, hsc, hst, dump_tree, dump_value, dump_list, merge_dicts, merge_str_entries,
          lookup_str, contains_str_key, merge_value, isNone, List.find?, beq_iff_eq]

/-- C8: transformation rules of the tree serializer: a non-tagged sub-model is
recursively serialized and inlined (as its own aliased tree), a tagged
sub-model is left as-is with no recursion, dicts recurse per value preserving
keys, lists recurse per element preserving order, an enum is replaced by its
underlying value, every scalar passes through unchanged, and the output tree
keys every field by its aliased (`field_name`) name. -/
theorem C8_to_asdf_tree_rules :
    (∀ fs, recurse_tree (.vmodel false fs) = .vdict (to_asdf_tree fs)) ∧
    (∀ fs, recurse_tree (.vmodel true fs) = .vmodel true fs) ∧
    (∀ xs, recurse_tree (.vdict xs) = .vdict (xs.map fun p => (p.1, recurse_tree p.2))) ∧
    (∀ xs, recurse_tree (.vlist xs) = .vlist (xs.map recurse_tree)) ∧
    (∀ v, recurse_tree (.venum v) = v) ∧
    (∀ v, is_scalar v = true → recurse_tree v = v) ∧
    (∀ fs, to_asdf_tree fs = fs.map fun p => (.vstr (field_name p.1), recurse_tree p.2)) := by
  refine ⟨?_, ?_, ?_, ?_, ?_, ?_, ?_⟩
  · intro fs; rw [recurse_tree]; simp [to_asdf_tree]
  · intro fs; rw [recurse_tree]; simp
  · intro xs; rw [recurse_tree, tree_dict_eq_map]
  · intro xs; rw [recurse_tree, tree_list_eq_map]
  · intro v; rw [recurse_tree]
  · exact fun v h => recurse_tree_scalar h
  · intro fs; rw [to_asdf_tree, tree_fields_eq_map]

/-- Witness for C8 at a concrete input: the scalar pass-through rule at the
integer 3. -/
theorem C8_to_asdf_tree_rules_witness : recurse_tree (.vint 3) = .vint 3 :=
  C8_to_asdf_tree_rules.2.2.2.2.2.1 (.vint 3) rfl

theorem flat_recurse_scalar {v : Value} (b : Bool) (path : List String)
    (h : is_scalar v = true) :
    flat_recurse b v path = [(join_path path, v)] := by
  cases v <;> simp_all [is_scalar, flat_recurse]

theorem flat_list_scalars (xs : List Value) (path : List String) (i : Nat)
    (h : ∀ x ∈ xs, is_scalar x = true) :
    flat_list true xs path i
      = ((List.range' i xs.length).zip xs).map
          fun p => (join_path (path ++ [toString p.1]), p.2) := by
  induction xs generalizing i with
  | nil => simp [flat_list]
  | cons x rest ih =>
      rw [flat_list, flat_recurse_scalar true (path ++ [toString i]) (h x (by simp)),
          ih (i + 1) (fun y hy => h y (by simp [hy]))]
      simp [List.range'_succ]

/-- C9: flattening a sequence field.  With `flatten_lists = true` a list of N
scalar elements yields N separate leaf entries whose paths append the integer
indices 0 through N-1 in order; with `flatten_lists = false` the field yields
exactly one entry carrying the whole list.  In both modes sub-model instances
are recursed into regardless of their taggedness, and an enum recurses into
its underlying value. -/
theorem C9_flat_items_lists :
    (∀ (f : String) (xs : List Value), (∀ x ∈ xs, is_scalar x = true) →
       flat_items true [(f, .vlist xs)]
         = ((List.range' 0 xs.length).zip xs).map
             fun p => (join_path [f, toString p.1], p.2)) ∧
    (∀ (f : String) (xs : List Value),
       flat_items false [(f, .vlist xs)] = [(join_path [f], .vlist xs)]) ∧
    (∀ (xs : List Value) (path : List String), (∀ x ∈ xs, is_scalar x = true) →
       flat_recurse true (.vlist xs) path
         = ((List.range' 0 xs.length).zip xs).map
             fun p => (join_path (path ++ [toString p.1]), p.2)) ∧
    (∀ (xs : List Value) (path : List String),
       flat_recurse false (.vlist xs) path = [(join_path path, .vlist xs)]) ∧
    (∀ (b t : Bool) (fs : List (String × Value)) (path : List String),
       flat_recurse b (.vmodel t fs) path = flat_fields b fs path) ∧
    (∀ (b : Bool) (v : Value) (path : List String),
       flat_recurse b (.venum v) path = flat_recurse b v path) := by
  have hlist : ∀ (xs : List Value) (path : List String),
      (∀ x ∈ xs, is_scalar x = true) →
      flat_recurse true (.vlist xs) path
        = ((List.range' 0 xs.length).zip xs).map
            fun p => (join_path (path ++ [toString p.1]), p.2) := by
    intro xs path h
    rw [flat_recurse]
    simp [flat_list_scalars xs path 0 h]
  refine ⟨?_, ?_, hlist, ?_, ?_, ?_⟩
  · intro f xs h
    rw [flat_items, flat_fields, flat_fields, hlist xs ([] ++ [f]) h]
    simp
  · intro f xs
    rw [flat_items, flat_fields, flat_fields, flat_recurse]
    simp
  · intro xs path
    rw [flat_recurse]
    simp
  · intro b t fs path
    rw [flat_recurse]
  · intro b v path
    rw [flat_recurse]

/-- Witness for C9 at a concrete input: a two-element scalar list flattens to
the two indexed leaves, in order. -/
theorem C9_flat_items_lists_witness :
    flat_items true [("tags", .vlist [.vint 1, .vint 2])]
      = [(join_path ["tags", "0"], .vint 1), (join_path ["tags", "1"], .vint 2)] := by
  have h0 : toString (0 : Nat) = "0" := rfl
  have h1 : toString (1 : Nat) = "1" := rfl
  rw [C9_flat_items_lists.1 "tags" [.vint 1, .vint 2] (by decide)]
  simp [List.range', h0, h1]

theorem pause_validation_inst_config (r : Bool) (blk : PInst → PInst × Option String)
    (i : PInst) : (pause_validation r blk i).inst.config = enabled_config := by
  rw [pause_validation]
  cases r with
  | false => simp
  | true => simp; split <;> simp

theorem pause_validation_err (blk : PInst → PInst × Option String) (i : PInst) :
    (pause_validation true blk i).err
      = if model_is_valid { (blk { i with config := paused_config }).1 with
            config := enabled_config } = true
        then (blk { i with config := paused_config }).2
        else some "ValidationError" := by
  rw [pause_validation]
  simp [model_validate, enabled_config]
  split <;> simp_all

/-- C3, counterexample: the validation flags live in the class-level
`model_config` dict, so for the two distinct instances `A = ⟨0, 0⟩` and
`B = ⟨1, 0⟩` of the same model class 0, entering `pause_validation` on `A`
changes whether assignments to `B` are validated (from validated to not). -/
theorem C3_counterexample :
    (⟨0, 0⟩ : CInst) ≠ (⟨1, 0⟩ : CInst) ∧
    assignments_validated init_world ⟨1, 0⟩ = true ∧
    assignments_validated (pause_enter init_world ⟨0, 0⟩) ⟨1, 0⟩ = false :=
  ⟨by decide, rfl, rfl⟩

/-- C3, amended: the flags toggled by `pause_validation` are class-level, not
instance-local: entering `pause_validation` on `A` disables assignment
validation for every instance of `A`'s class (including other instances of
the same class), and leaves instances of every other class unchanged. -/
theorem C3_pause_flags_class_level :
    ∀ (w : WorldConfig) (a b : CInst),
      (b.cls = a.cls → assignments_validated (pause_enter w a) b = false) ∧
      (b.cls ≠ a.cls →
        assignments_validated (pause_enter w a) b = assignments_validated w b) := by
  intro w a b
  constructor
  · intro h
    simp [assignments_validated, pause_enter, h, paused_config]
  · intro h
    simp [assignments_validated, pause_enter, h]

/-- Witness for C3's amended statement at concrete instances: pausing on
instance 2 of class 5 disables validation for instance 3 of class 5, and
leaves instance 4 of class 6 validated. -/
theorem C3_pause_flags_class_level_witness :
    assignments_validated (pause_enter init_world ⟨2, 5⟩) ⟨3, 5⟩ = false ∧
    assignments_validated (pause_enter init_world ⟨2, 5⟩) ⟨4, 6⟩
      = assignments_validated init_world ⟨4, 6⟩ :=
  ⟨(C3_pause_flags_class_level init_world ⟨2, 5⟩ ⟨3, 5⟩).1 rfl,
   (C3_pause_flags_class_level init_world ⟨2, 5⟩ ⟨4, 6⟩).2 (by decide)⟩

/-- C10: the `finally` clause of `pause_validation` sets
`validate_assignment = True` and `revalidate_instances = "always"`
unconditionally, whatever the flags held on entry (first conjunct: arbitrary
entry config), so an inner scope that exits while an outer scope is still
active re-enables validation (second conjunct: entry config already paused by
the outer scope). -/
theorem C10_pause_exit_unconditional :
    ∀ (r r2 : Bool) (blk blk2 : PInst → PInst × Option String) (i : PInst),
      (pause_validation r blk i).inst.config = enabled_config ∧
      (pause_validation r2 blk2 { i with config := paused_config }).inst.config
        = enabled_config := by
  intro r r2 blk blk2 i
  exact ⟨pause_validation_inst_config r blk i,
         pause_validation_inst_config r2 blk2 { i with config := paused_config }⟩

/-- C4: the validation-pause scope (a) restores both flags to their enabled
values on every exit path (the block may finish normally or report an
exception; either way the result config is the enabled one), (b) performs
exactly one full revalidation when `revalidate_on_exit` is true, (c) lets any
assignment inside the block through without raising (the paused `setattr`
always succeeds, whatever the value), and (d) raises a validation error from
the exit revalidation when the block left the instance invalid, while (e) a
valid instance on exit propagates only the block's own error, if any. -/
theorem C4_pause_validation_contract :
    ∀ (r : Bool) (blk : PInst → PInst × Option String) (i : PInst) (k : String) (v : Value),
      (pause_validation r blk i).inst.config = enabled_config ∧
      (pause_validation true blk i).revalidations = 1 ∧
      (setattr_model { i with config := paused_config } k v
        = .ok { i with config := paused_config, fields := set_field i.fields k v }) ∧
      (model_is_valid { (blk { i with config := paused_config }).1 with
          config := enabled_config } = false →
        (pause_validation true blk i).err = some "ValidationError") ∧
      (model_is_valid { (blk { i with config := paused_config }).1 with
          config := enabled_config } = true →
        (pause_validation true blk i).err
          = (blk { i with config := paused_config }).2) := by
  intro r blk i k v
  refine ⟨pause_validation_inst_config r blk i, ?_, ?_, ?_, ?_⟩
  · rw [pause_validation]
    simp
    split <;> simp
  · rw [setattr_model]
    simp [paused_config]
  · intro h
    rw [pause_validation_err, h]
    simp
  · intro h
    rw [pause_validation_err, h]
    simp

/-- Witness for C4 at a concrete input: on a valid one-`int`-field instance, a
block that assigns the string "bad" to the `int` field inside the scope does
not raise at assignment time, and the exit revalidation of
`pause_validation(revalidate_on_exit=True)` raises the validation error. -/
theorem C4_pause_validation_contract_witness :
    (pause_validation true wblock winst).err = some "ValidationError" := by
  refine (C4_pause_validation_contract true wblock winst "count" (.vstr "bad")).2.2.2.1 ?_
  simp [wblock, winst, wschema, setattr_model, paused_config, enabled_config, field_ann,
        set_field, contains_str_key, model_is_valid, wt_fields, wt, List.find?]

/-- C6: item-style assignment with `_validate_setitem = True` (and the default
enabled config) of a value that fails type validation for a declared field
raises a validation error, leaves every field of the instance unchanged (the
result state is the input instance), emits no warning and performs no
revalidation. -/
theorem C6_setitem_validates :
    ∀ (i : PInst) (k : String) (v : Value) (a : Ann),
      i.validate_setitem = true →
      i.config.validate_assignment = true →
      field_ann i.schema k = some a →
      wt a v = false →
      setitem i k v = ⟨i, [], some "ValidationError", 0⟩ := by
  intro i k v a hsi hva hann hwt
  rw [setitem]
  simp [hsi, setattr_model, hva, hann, hwt]

/-- Witness for C6 at a concrete input: assigning the string "bad" to the
`int` field "count" through `__setitem__` raises and leaves the instance
unchanged. -/
theorem C6_setitem_validates_witness :
    setitem winst "count" (.vstr "bad") = ⟨winst, [], some "ValidationError", 0⟩ :=
  C6_setitem_validates winst "count" (.vstr "bad") .aint rfl rfl rfl (by simp [wt])

/-- C7: item-style assignment with `_validate_setitem = False` succeeds with
no error for any value, emits exactly the one circumvention warning, performs
the write inside a pause scope with the exit revalidation skipped (zero
revalidations), and leaves the flags re-enabled afterwards. -/
theorem C7_setitem_unvalidated :
    ∀ (i : PInst) (k : String) (v : Value),
      i.validate_setitem = false →
      (setitem i k v).err = none ∧
      (setitem i k v).warnings = [setitem_warning] ∧
      (setitem i k v).revalidations = 0 ∧
      (setitem i k v).inst.fields = set_field i.fields k v ∧
      (setitem i k v).inst.config = enabled_config := by
  intro i k v h
  rw [setitem]
  simp [h, pause_validation, setattr_model, paused_config]

/-- Witness for C7 at a concrete input: with the flag off, assigning the
type-incompatible string "bad" to the `int` field succeeds, warns once and
never revalidates. -/
theorem C7_setitem_unvalidated_witness :
    (setitem winst2 "count" (.vstr "bad")).err = none ∧
    (setitem winst2 "count" (.vstr "bad")).warnings = [setitem_warning] ∧
    (setitem winst2 "count" (.vstr "bad")).revalidations = 0 ∧
    (setitem winst2 "count" (.vstr "bad")).inst.fields
      = set_field winst2.fields "count" (.vstr "bad") ∧
    (setitem winst2 "count" (.vstr "bad")).inst.config = enabled_config :=
  C7_setitem_unvalidated winst2 "count" (.vstr "bad") rfl

theorem scalars_only_mem {l : List Value} (h : scalars_only l = true) :
    ∀ m ∈ l, is_scalar m = true := by
  induction l with
  | nil => simp
  | cons x xs ih =>
      rw [scalars_only] at h
      simp at h
      intro m hm
      rcases List.mem_cons.mp hm with hm' | hm'
      · rw [hm']; exact h.1
      · exact ih h.2 m hm'

theorem scalar_of_beq {m v : Value} (hm : is_scalar m = true)
    (hb : Value.beq m v = true) : is_scalar v = true := by
  cases m <;> cases v <;> simp_all [is_scalar, Value.beq]

theorem construct_scalar_ann {t : Ann} {v : Value} (ht : is_scalar_ann t = true)
    (hw : wt t v = true) : construct t v = some v ∧ is_scalar v = true := by
  cases t with
  | aint => cases v <;> simp_all [wt, construct, is_scalar]
  | afloat => cases v <;> simp_all [wt, construct, is_scalar]
  | astr => cases v <;> simp_all [wt, construct, is_scalar]
  | abool => cases v <;> simp_all [wt, construct, is_scalar]
  | aother =>
      rw [wt] at hw
      exact ⟨by rw [construct]; simp [hw], hw⟩
  | aenum members =>
      rw [wt] at hw
      have hv : is_scalar v = true := by
        rcases List.any_eq_true.mp hw with ⟨m, hm, hbm⟩
        exact scalar_of_beq (scalars_only_mem (by simpa [is_scalar_ann] using ht) m hm) hbm
      exact ⟨by rw [construct]; simp [hw], hv⟩
  | amodel tagged fs => simp [is_scalar_ann] at ht
  | alist args => simp [is_scalar_ann] at ht
  | adict kty vty => simp [is_scalar_ann] at ht

theorem lookup_value_cons_true {e : Value × Value} {entries : List (Value × Value)}
    {k : Value} (h : Value.beq e.1 k = true) :
    lookup_value (e :: entries) k = some e.2 := by
  rw [lookup_value, List.find?]
  simp [h]

theorem lookup_value_cons_false {e : Value × Value} {entries : List (Value × Value)}
    {k : Value} (h : Value.beq e.1 k = false) :
    lookup_value (e :: entries) k = lookup_value entries k := by
  rw [lookup_value, List.find?, lookup_value]
  simp [h]

theorem construct_fields_skip {s : String} (fs : List Field) (e : Value × Value)
    (entries : List (Value × Value)) (hk : e.1 = .vstr s)
    (hno : (alias_names fs).contains s = false) :
    construct_fields fs (e :: entries) = construct_fields fs entries := by
  induction fs with
  | nil => rw [construct_fields, construct_fields]
  | cons f fs ih =>
      obtain ⟨n, d, ad, a⟩ := f
      rw [alias_names, List.contains_cons, Bool.or_eq_false_iff] at hno
      have h1 : s ≠ field_name n := by simpa using hno.1
      have hbeq : Value.beq e.1 (.vstr (field_name n)) = false := by
        rw [hk, Value.beq]
        simp
        exact h1
      rw [construct_fields, construct_fields, lookup_value_cons_false hbeq]
      simp only [ih hno.2]

theorem construct_list_tree (N : Nat)
    (ih : ∀ (a : Ann) (v : Value), sizeOf v < N → good_ann a = true → wt a v = true →
      no_tagged v = true → construct a (recurse_tree v) = some v)
    (t : Ann) (hg : good_ann t = true) :
    ∀ (xs : List Value), sizeOf xs ≤ N → wt_list t xs = true → no_tagged_list xs = true →
      construct_list t (tree_list xs) = some xs := by
  intro xs
  induction xs with
  | nil => intro _ _ _; rw [tree_list, construct_list]
  | cons x rest ihl =>
      intro hsz hw hnt
      rw [wt_list] at hw
      rw [no_tagged_list] at hnt
      simp at hw hnt
      have hszx : sizeOf x < N := by
        have : sizeOf x < sizeOf (x :: rest) := by first
        | (simp; omega)
        | simp
        | omega
        omega
      have hszr : sizeOf rest ≤ N := by
        have : sizeOf rest < sizeOf (x :: rest) := by first
        | (simp; omega)
        | simp
        | omega
        omega
      rw [tree_list, construct_list]
      simp only [ih t x hszx hg hw.1 hnt.1, ihl hszr hw.2 hnt.2]

theorem construct_dict_tree (N : Nat)
    (ih : ∀ (a : Ann) (v : Value), sizeOf v < N → good_ann a = true → wt a v = true →
      no_tagged v = true → construct a (recurse_tree v) = some v)
    (kty vty : Ann) (hgk : is_scalar_ann kty = true) (hgv : good_ann vty = true) :
    ∀ (xs : List (Value × Value)), sizeOf xs ≤ N → wt_dict kty vty xs = true →
      no_tagged_dict xs = true → construct_dict kty vty (tree_dict xs) = some xs := by
  intro xs
  induction xs with
  | nil => intro _ _ _; rw [tree_dict, construct_dict]
  | cons p rest ihl =>
      obtain ⟨k, v⟩ := p
      intro hsz hw hnt
      rw [wt_dict] at hw
      rw [no_tagged_dict] at hnt
      simp at hw hnt
      have hszv : sizeOf v < N := by
        have : sizeOf v < sizeOf ((k, v) :: rest) := by first
        | (simp; omega)
        | simp
        | omega
        omega
      have hszr : sizeOf rest ≤ N := by
        have : sizeOf rest < sizeOf ((k, v) :: rest) := by first
        | (simp; omega)
        | simp
        | omega
        omega
      rw [tree_dict, construct_dict]
      simp only [(construct_scalar_ann hgk hw.1.1).1,
          ih vty v hszv hgv hw.1.2 hnt.1.2, ihl hszr hw.2 hnt.2]

theorem construct_fields_tree (N : Nat)
    (ih : ∀ (a : Ann) (v : Value), sizeOf v < N → good_ann a = true → wt a v = true →
      no_tagged v = true → construct a (recurse_tree v) = some v) :
    ∀ (fs : List Field) (vs : List (String × Value)), sizeOf vs ≤ N →
      distinct_keys (alias_names fs) = true → good_fields fs = true →
      wt_fields fs vs = true → no_tagged_fields vs = true →
      construct_fields fs (tree_fields vs) = some vs := by
  intro fs
  induction fs with
  | nil =>
      intro vs _ _ _ hw _
      cases vs with
      | nil => rw [tree_fields, construct_fields]
      | cons p rest => simp [wt_fields] at hw
  | cons f fs ih2 =>
      intro vs hsz hd hg hw hnt
      obtain ⟨n, d, ad, a⟩ := f
      cases vs with
      | nil => simp [wt_fields] at hw
      | cons p rest =>
          obtain ⟨m, v⟩ := p
          rw [wt_fields] at hw
          rw [no_tagged_fields] at hnt
          rw [alias_names, distinct_keys] at hd
          rw [good_fields] at hg
          simp at hw hnt hd hg
          obtain ⟨⟨hnm, hwv⟩, hwrest⟩ := hw
          subst hnm
          have hszv : sizeOf v < N := by
            have : sizeOf v < sizeOf ((n, v) :: rest) := by first
        | (simp; omega)
        | simp
        | omega
            omega
          have hszr : sizeOf rest ≤ N := by
            have : sizeOf rest < sizeOf ((n, v) :: rest) := by first
        | (simp; omega)
        | simp
        | omega
            omega
          rw [tree_fields, construct_fields,
              lookup_value_cons_true (by rw [Value.beq]; simp)]
          simp only [ih a v hszv hg.1 hwv hnt.1,
            construct_fields_skip fs (.vstr (field_name n), recurse_tree v)
              (tree_fields rest) rfl (by simpa using hd.1),
            ih2 rest hszr hd.2 hg.2 hwrest hnt.2]

theorem good_ann_alist_single (t : Ann) : good_ann (.alist [t]) = good_ann t := by
  rw [good_ann.eq_def]

theorem good_ann_adict (kty vty : Ann) :
    good_ann (.adict kty vty) = (is_scalar_ann kty && good_ann vty) := by
  rw [good_ann.eq_def]

theorem construct_recurse_aux :
    ∀ (N : Nat) (a : Ann) (v : Value), sizeOf v < N →
      good_ann a = true → wt a v = true → no_tagged v = true →
      construct a (recurse_tree v) = some v := by
  intro N
  induction N with
  | zero => intro a v h; omega
  | succ N ih =>
      intro a v hs hg hw hnt
      cases a with
      | aint => cases v <;> simp_all [wt, recurse_tree, construct]
      | afloat => cases v <;> simp_all [wt, recurse_tree, construct]
      | astr => cases v <;> simp_all [wt, recurse_tree, construct]
      | abool => cases v <;> simp_all [wt, recurse_tree, construct]
      | aother =>
          rw [wt] at hw
          rw [recurse_tree_scalar hw, construct]
          simp [hw]
      | aenum members =>
          have h2 := @construct_scalar_ann (.aenum members) v
            (by rwa [is_scalar_ann, ← good_ann]) hw
          rw [recurse_tree_scalar h2.2]
          exact h2.1
      | amodel tagged fs =>
          cases v with
          | vmodel t vs =>
              rw [wt] at hw
              rw [no_tagged] at hnt
              rw [good_ann] at hg
              simp at hw hnt hg
              obtain ⟨ht, hwf⟩ := hw
              subst ht
              rw [hnt.1]
              rw [recurse_tree]
              simp only [Bool.false_eq_true, if_false, ite_false]
              rw [construct]
              have hb : sizeOf vs ≤ N := by
                have : sizeOf vs < sizeOf (Value.vmodel tagged vs) := by first
                  | (simp; omega)
                  | simp
                  | omega
                omega
              rw [construct_fields_tree N (fun a2 v2 h2 => ih a2 v2 (by omega))
                    fs vs hb hg.1 hg.2 hwf hnt.2]
              rfl
          | vint n => simp [wt] at hw
          | vstr s2 => simp [wt] at hw
          | vbool b => simp [wt] at hw
          | vnone => simp [wt] at hw
          | vlist xs => simp [wt] at hw
          | vdict xs => simp [wt] at hw
          | venum w => simp [wt] at hw
          | vother t2 => simp [wt] at hw
      | alist args =>
          cases v with
          | vlist xs =>
              cases args with
              | nil => simp [wt.eq_def] at hw
              | cons t rest =>
                  cases rest with
                  | cons t2 r2 => simp [wt.eq_def] at hw
                  | nil =>
                      simp [wt.eq_def] at hw
                      simp [no_tagged] at hnt
                      rw [good_ann_alist_single] at hg
                      rw [recurse_tree, construct]
                      have hb : sizeOf xs ≤ N := by
                        have : sizeOf xs < sizeOf (Value.vlist xs) := by first
        | (simp; omega)
        | simp
        | omega
                        omega
                      rw [construct_list_tree N (fun a2 v2 h2 => ih a2 v2 (by omega))
                            t hg xs hb hw hnt]
                      rfl
          | vint n => simp [wt] at hw
          | vstr s2 => simp [wt] at hw
          | vbool b => simp [wt] at hw
          | vnone => simp [wt] at hw
          | vdict xs => simp [wt] at hw
          | vmodel t2 fs2 => simp [wt] at hw
          | venum w => simp [wt] at hw
          | vother t2 => simp [wt] at hw
      | adict kty vty =>
          cases v with
          | vdict xs =>
              rw [wt] at hw
              simp [no_tagged] at hnt
              rw [good_ann_adict, Bool.and_eq_true] at hg
              rw [recurse_tree, construct]
              have hb : sizeOf xs ≤ N := by
                have : sizeOf xs < sizeOf (Value.vdict xs) := by first
        | (simp; omega)
        | simp
        | omega
                omega
              rw [construct_dict_tree N (fun a2 v2 h2 => ih a2 v2 (by omega))
                    kty vty hg.1 hg.2 xs hb hw hnt]
              rfl
          | vint n => simp [wt] at hw
          | vstr s2 => simp [wt] at hw
          | vbool b => simp [wt] at hw
          | vnone => simp [wt] at hw
          | vlist xs => simp [wt] at hw
          | vmodel t2 fs2 => simp [wt] at hw
          | venum w => simp [wt] at hw
          | vother t2 => simp [wt] at hw

/-- C5: the serialize-then-construct round-trip.  For a model whose declared
fields have distinct aliased names and well-formed annotations, and an
instance whose field values validate and are free of tagged sub-instances,
constructing a fresh instance of the same model class from the
`to_asdf_tree` output reproduces the original field values exactly. -/
theorem C5_roundtrip :
    ∀ (fs : List Field) (vs : List (String × Value)),
      distinct_keys (alias_names fs) = true →
      good_fields fs = true →
      wt_fields fs vs = true →
      no_tagged_fields vs = true →
      construct_fields fs (to_asdf_tree vs) = some vs := by
  intro fs vs h1 h2 h3 h4
  rw [to_asdf_tree]
  exact construct_fields_tree (sizeOf vs)
    (fun a v hv => construct_recurse_aux (sizeOf vs) a v hv)
    fs vs (le_refl _) h1 h2 h3 h4

/-- Witness for C5 at a concrete input: the five-field instance (aliased
string, nested model, enum, list, dict) survives the round-trip. -/
theorem C5_roundtrip_witness :
    construct_fields rschema (to_asdf_tree rfields) = some rfields := by
  refine C5_roundtrip rschema rfields ?_ ?_ ?_ ?_
  · simp [rschema, alias_names, distinct_keys, field_name]
  · simp [rschema, good_fields, good_ann, good_fields, is_scalar_ann, scalars_only,
          is_scalar, alias_names, distinct_keys, field_name]
  · simp [rschema, rfields, wt_fields, wt, wt_list, wt_dict, Value.beq, is_scalar]
  · simp [rfields, no_tagged_fields, no_tagged, no_tagged_list, no_tagged_dict]

end RomanDM
